import Mathlib

/-!
# Verification of the bpython curtsies frontend driver

A shallow embedding of the parts of `bpython/curtsies.py`,
`bpython/curtsiesfrontend/preprocess.py` and
`bpython/curtsiesfrontend/filewatch.py` relevant to the specified
behaviour, together with theorems settling the spec's claims:

* the event coalescer `_combined_events` (keystroke batching into paste
  events, handling of structured events and timeouts);
* the driver's `process_event` (final paint before propagating a
  session-terminating exception, `scroll_offset` accounting);
* `on_suspend` / `after_suspend` (terminal release/reacquire order and the
  synthesized refresh event);
* the source preprocessing pipeline (`indent_empty_lines`,
  `leading_tabs_to_spaces`, `preprocess`, `desugar`,
  `find_first_identifier`);
* the `filewatch` import-error fallback;
* the interactive `mainloop` warm-up namespace bookkeeping.

Python text is modelled as `List Char`; abstract integers stand in for
key payloads and event tags, and external collaborators (the parser used
by `??` desugaring, the renderer, the interpreter dispatch) are taken as
function parameters.
-/

namespace BpythonSpec

/-! ## The event coalescer (`_combined_events` in `bpython/curtsies.py`)

The curtsies input generator (`event_provider`) produces, for each
`send(timeout)` call, one raw unit: a structured `curtsies.events.Event`
(tag abstracted to a `Nat`), the `None` timeout sentinel, or a plain
keypress (payload abstracted to a `Nat`).  We model the provider as a
queue of raw units consumed one per `send` call; an exhausted provider
behaves like a terminal with no pending input, i.e. every further `send`
times out and returns `None`. -/

/-- One raw unit returned by `event_provider.send`. -/
inductive RawUnit where
  | ev (tag : Nat)
  | timeout
  | key (k : Nat)
deriving DecidableEq

/-- Whether a raw unit is a plain keypress (neither a structured
`curtsies.events.Event` nor the `None` timeout sentinel); this is the
condition of the inner probing loop of `_combined_events`. -/
def RawUnit.isKey : RawUnit → Bool
  | .key _ => true
  | _ => false

/-- One value yielded by `_combined_events`: a structured event passed
through, the `None` timeout, an assembled `PasteEvent` (its `events`
list), or a single replayed keystroke. -/
inductive Output where
  | ev (tag : Nat)
  | none
  | paste (ks : List Nat)
  | key (k : Nat)
deriving DecidableEq

/-- The inner probing loop of `_combined_events`:

    e = event_provider.send(0)
    while not (e is None or isinstance(e, curtsies.events.Event)):
        queue.append(e)
        e = event_provider.send(0)

Keystrokes are appended to the queue until a structured event or a
timeout (`None`) is returned; note that the raw unit that stopped the
loop is discarded (the local `e` is overwritten by the next outer
`send`).  Returns the final queue and the remaining provider contents.
An exhausted provider returns `None` (timeout), stopping the loop. -/
def probe : List RawUnit → List Nat → List Nat × List RawUnit
  | [], q => (q, [])
  | .key k :: rest, q => probe rest (q ++ [k])
  | .ev _ :: rest, q => (q, rest)
  | .timeout :: rest, q => (q, rest)

/-- One outer iteration plus recursion of the `while True:` loop of
`_combined_events`, driven by `fuel` outer iterations.  Outputs yielded
during an iteration are concatenated (the initial `yield
'nonsense_event'` consumed by `combined_events`' `next(g)` is before the
loop and not part of the output).  `queue` is empty at the top of each
iteration in the source (it is always fully drained before looping), so
it is rebuilt locally. -/
def runCoalescer (threshold : Nat) : Nat → List RawUnit → List Output
  | 0, _ => []
  | fuel + 1, input =>
    match input with
    | [] => Output.none :: runCoalescer threshold fuel []
    | .ev t :: rest => Output.ev t :: runCoalescer threshold fuel rest
    | .timeout :: rest => Output.none :: runCoalescer threshold fuel rest
    | .key k :: rest =>
      let pr := probe rest [k]
      (if threshold ≤ pr.1.length then [Output.paste pr.1]
       else pr.1.map Output.key) ++ runCoalescer threshold fuel pr.2

/-! ## Source preprocessing (`bpython/curtsiesfrontend/preprocess.py`)

Python text is modelled as `List Char`.  `str.split("\n")` and
`"\n".join(...)` are modelled by `splitNl` / `joinNl`. -/

/-- `s.split("\n")`: split on every newline; always returns at least one
(possibly empty) line, and one more line than there are newlines. -/
def splitNl : List Char → List (List Char)
  | [] => [[]]
  | c :: rest =>
    if c = '\n' then [] :: splitNl rest
    else
      match splitNl rest with
      | l :: ls => (c :: l) :: ls
      | [] => [[c]]

/-- `"\n".join(lines)`. -/
def joinNl : List (List Char) → List Char
  | [] => []
  | [l] => l
  | l :: ls => l ++ '\n' :: joinNl ls

/-- The character class of the Python regex `\s` (as used by
`indent_empty_lines_re = LazyReCompile(r"\s*")`) restricted to ASCII:
space, tab, newline, carriage return, vertical tab, form feed. -/
def isPySpace (c : Char) : Bool :=
  c = ' ' ∨ c = '\t' ∨ c = '\n' ∨ c = '\r' ∨ c = '\x0b' ∨ c = '\x0c'

/-- `indent_empty_lines_re.match(line).group()`: the longest leading run
of whitespace of a line (the regex `\s*` anchored at the start). -/
def wsRun (l : List Char) : List Char := l.takeWhile isPySpace

/-- `min([p_indent, n_indent], key=len)`: the shorter list by length;
Python's `min` returns the *first* minimal element, so ties go to the
first argument. -/
def minByLen (a b : List Char) : List Char :=
  if b.length < a.length then b else a

/-- The body of the `for p_line, line, n_line in zip(prevs, lines,
nexts)` loop of `indent_empty_lines`: an empty line is replaced by the
shorter of the neighbouring lines' whitespace runs (prepended to the
empty line), any other line is kept. -/
def fixLine (p l n : List Char) : List Char :=
  if l = [] then minByLen (wsRun p) (wsRun n) ++ l else l

/-- The whole `zip(prevs, lines, nexts)` loop: `prevs` is the line list
preceded by `""`, `nexts` is the line list shifted left and padded with
`""`; `zip` truncates to the length of `lines`. -/
def fixLinesZip (lines : List (List Char)) : List (List Char) :=
  (List.zip ([] :: lines) (List.zip lines (lines.drop 1 ++ [[]]))).map
    (fun pln => fixLine pln.1 pln.2.1 pln.2.2)

/-- Recursive reformulation of `fixLinesZip`, threading the previous
*original* line (the `tee` copies are made before any modification):
`fixLines p lines` processes `lines` whose predecessor line is `p`. -/
def fixLines : List Char → List (List Char) → List (List Char)
  | _, [] => []
  | p, [l] => [fixLine p l []]
  | p, l :: n :: rest => fixLine p l n :: fixLines l (n :: rest)

/-- `indent_empty_lines(s, compiler)` (the `compiler` argument is unused
by the source): split into lines; if the last line is empty (i.e. `s`
ends in a newline, or `s` is empty) pop it and remember to re-append a
final newline; rewrite empty lines from their original neighbours; join.
-/
def indent_empty_lines (s : List Char) : List Char :=
  let initial := splitNl s
  if initial ≠ [] ∧ initial.getLast? = some [] then
    joinNl (fixLinesZip initial.dropLast) ++ ['\n']
  else
    joinNl (fixLinesZip initial)

/-- The substitution for one line of `leading_tabs_to_spaces`: the regex
`^\t+` matches the leading run of tabs (if any), which is replaced by
four spaces per tab; with no leading tab the line is unchanged (the
definition below reduces to `l` when `k = 0`). -/
def tabLine (l : List Char) : List Char :=
  let k := (l.takeWhile (fun c => c = '\t')).length
  List.replicate (4 * k) ' ' ++ l.drop k

/-- `leading_tabs_to_spaces(s)`: apply `tabLine` to every line. -/
def leading_tabs_to_spaces (s : List Char) : List Char :=
  joinNl ((splitNl s).map tabLine)

/-- `preprocess(s, compiler)`: expand leading tabs, then repair empty
lines. -/
def preprocess (s : List Char) : List Char :=
  indent_empty_lines (leading_tabs_to_spaces s)

/-! ### Shorthand desugaring (`desugar`, `find_first_identifier`)

`ast.parse` is external (the Python parser); it is abstracted as a
function `parse : List Char → Option Ast` where `Option.none` models a
`SyntaxError`.  `Ast` keeps the two node shapes the `NodeVisitor`
inspects (`Name`, `Attribute`) and folds every other node into a generic
node with a list of children (`ast.iter_child_nodes` order). -/

/-- Abstract Python AST: a `Name` (with `ast.unparse` result `id`), an
`Attribute` (value plus attribute name), or any other node with its
children in traversal order. -/
inductive Ast where
  | name (id : List Char)
  | attribute (value : Ast) (attr : List Char)
  | node (kids : List Ast)

/-- `ast.unparse` on the nodes the visitor records: a `Name` unparses to
its identifier, an `Attribute` to `value.attr`.  Generic nodes are never
unparsed by the source; they are mapped to `[]`. -/
def unparseAst : Ast → List Char
  | .name i => i
  | .attribute v a => unparseAst v ++ '.' :: a
  | .node _ => []

mutual

/-- `NodeVisitor.visit`: `visit_Name` and `visit_Attribute` append
`ast.unparse(node)` and do not recurse into children (they do not call
`generic_visit`); all other nodes are traversed child by child in
pre-order, collecting `self.exprs`. -/
def visitAst : Ast → List (List Char)
  | .name i => [unparseAst (.name i)]
  | .attribute v a => [unparseAst (.attribute v a)]
  | .node kids => visitKids kids

/-- `generic_visit`: visit each child in order. -/
def visitKids : List Ast → List (List Char)
  | [] => []
  | a :: rest => visitAst a ++ visitKids rest

end

/-- `DesugaringException` messages. -/
def invalidSyntaxMsg : List Char := "invalid syntax".toList

/-- Message raised when the visitor records no expression. -/
def noIdentifierMsg : List Char := "no identifier names in source".toList

/-- `find_first_identifier(source)`: parse (a `SyntaxError` becomes
`DesugaringException("invalid syntax")`), visit, and return the first
recorded expression, or raise
`DesugaringException("no identifier names in source")`. -/
def find_first_identifier (parse : List Char → Option Ast)
    (source : List Char) : Except (List Char) (List Char) :=
  match parse source with
  | Option.none => .error invalidSyntaxMsg
  | Option.some t =>
    match visitAst t with
    | [] => .error noIdentifierMsg
    | e :: _ => .ok e

/-- `string.ascii_letters`. -/
def asciiLetters : List Char :=
  "abcdefghijklmnopqrstuvwxyzABCDEFGHIJKLMNOPQRSTUVWXYZ".toList

/-- The character class stripped by argumentless `str.strip()`. -/
def isPyStripSpace (c : Char) : Bool :=
  c = ' ' ∨ c = '\t' ∨ c = '\n' ∨ c = '\r' ∨ c = '\x0b' ∨ c = '\x0c'

/-- `s.strip(chars)` / `s.strip()`: drop characters of the given class
from both ends. -/
def pyStrip (keepOut : Char → Bool) (s : List Char) : List Char :=
  ((s.dropWhile keepOut).reverse.dropWhile keepOut).reverse

/-- `s.removesuffix(suf)`. -/
def removesuffix (suf s : List Char) : List Char :=
  if suf.isSuffixOf s then s.take (s.length - suf.length) else s

/-- `s.rpartition(sep)` restricted to the two fields the source uses
(`left, _, right = source.rpartition("!")`): split around the *last*
occurrence of `sep`; when `sep` does not occur, `left` is empty and
`right` is the whole string per Python's `('', '', s)`. -/
def rpartition (sep : Char) (s : List Char) : List Char × List Char :=
  match s.reverse.span (fun c => ¬ c = sep) with
  | (_rR, []) => ([], s)
  | (rR, _ :: rL) => (rL.reverse, rR.reverse)

/-- A single-quote character (used to build the generated `print`
statements). -/
def sq : Char := Char.ofNat 39

/-- The `??` success rewrite:
`f-string print({identifier}.__doc__ or "'{identifier}' has no docstring")`. -/
def docMsg (id : List Char) : List Char :=
  "print(".toList ++ id ++ ".__doc__ or ".toList ++ '"' :: sq :: id
    ++ sq :: " has no docstring".toList ++ '"' :: [')']

/-- The `??` failure rewrite:
`f-string print('Unable to find docs ({exc})')`. -/
def fallbackMsg (m : List Char) : List Char :=
  "print(".toList ++ sq :: "Unable to find docs (".toList ++ m
    ++ ')' :: sq :: [')']

/-- `desugar(source)`: a source ending in `??` is rewritten into a
docstring-printing statement (or a fallback print when
`find_first_identifier` raises); otherwise, if the source stripped of
ASCII letters at both ends still ends in `!`, `left!right` (split at the
last `!`) becomes `right(left)`; otherwise the source is unchanged. -/
def desugar (parse : List Char → Option Ast) (source : List Char) :
    List Char :=
  if ['?', '?'].isSuffixOf source then
    match find_first_identifier parse
        (removesuffix ['?', '?'] (pyStrip isPyStripSpace source)) with
    | .ok identifier => docMsg identifier
    | .error exc => fallbackMsg exc
  else if ['!'].isSuffixOf (pyStrip (fun c => c ∈ asciiLetters) source) then
    let lr := rpartition '!' source
    lr.2 ++ '(' :: lr.1 ++ [')']
  else source

/-! ## The session driver (`FullCurtsiesRepl` in `bpython/curtsies.py`)

`BaseRepl.process_event` (external) either returns normally or raises
`SystemExitFromCodeGreenlet` / `SystemExit`; its behaviour is abstracted
as a function `dispatch : Nat → Option TerminationExc` on event codes.
`self.paint(...)` followed by `self.window.render_to_terminal` is
abstracted as `renderScroll : PaintArgs → Int` returning the number of
lines scrolled; the paint arguments are recorded so that the final frame
can be observed. -/

/-- The two exception classes caught by `process_event`. -/
inductive TerminationExc where
  | fromCodeGreenlet (payload : Int)
  | fromSystemExit (payload : Int)
deriving DecidableEq

/-- `user_quit=isinstance(err, SystemExitFromCodeGreenlet)`. -/
def TerminationExc.userQuitFlag : TerminationExc → Bool
  | .fromCodeGreenlet _ => true
  | .fromSystemExit _ => false

/-- Arguments of a `self.paint(...)` call; the argumentless call uses the
defaults `about_to_exit=False, user_quit=False`. -/
structure PaintArgs where
  about_to_exit : Bool
  user_quit : Bool
deriving DecidableEq

/-- `FullCurtsiesRepl.process_event(e)`: dispatch (skipped for `None`),
paint exactly once — with `about_to_exit=True` and the `user_quit`
distinction when a termination exception was raised — add the scrolled
amount to `scroll_offset`, and re-raise the same exception (first
component `Option.some err`) or return normally (`Option.none`).
Returns (new `scroll_offset`, propagated exception, paint calls made). -/
def process_event (dispatch : Nat → Option TerminationExc)
    (renderScroll : PaintArgs → Int) (off : Int) (e : Option Nat) :
    Int × Option TerminationExc × List PaintArgs :=
  match e with
  | Option.none =>
    let a : PaintArgs := ⟨false, false⟩
    (off + renderScroll a, Option.none, [a])
  | Option.some ev =>
    match dispatch ev with
    | Option.none =>
      let a : PaintArgs := ⟨false, false⟩
      (off + renderScroll a, Option.none, [a])
    | Option.some err =>
      let a : PaintArgs := ⟨true, err.userQuitFlag⟩
      (off + renderScroll a, Option.some err, [a])

/-- The driver's event loop viewed through `process_event`: each cycle
supplies one event (`Option.none` = repaint only) and the amount the
renderer reports for that cycle's paint.  A raised termination stops the
loop after its final paint (the exception propagates out of `mainloop`).
Returns the final `scroll_offset` and the list of per-paint scroll
amounts actually painted. -/
def runLoop (dispatch : Nat → Option TerminationExc) :
    List (Option Nat × Int) → Int → Int × List Int
  | [], off => (off, [])
  | (e, amt) :: rest, off =>
    match process_event dispatch (fun _ => amt) off e with
    | (off2, Option.some _, _) => (off2, [amt])
    | (off2, Option.none, _) =>
      let r := runLoop dispatch rest off2
      (r.1, amt :: r.2)

/-! ### Suspend / resume (`on_suspend`, `after_suspend`) -/

/-- The two terminal resources handed over around a suspend. -/
inductive Resource where
  | window
  | rawInput
deriving DecidableEq

/-- Side effects performed by `on_suspend` / `after_suspend`, in program
order: `__exit__` / `__enter__` on the window and the input generator,
and the `interrupting_refresh()` trigger invocation. -/
inductive SusAction where
  | exitWindow
  | exitInput
  | enterInput
  | enterWindow
  | interruptingRefresh
deriving DecidableEq

/-- An item of the input generator's event queue as seen by the driver:
the event injected by `interrupting_refresh` (the
`threadsafe_event_trigger(lambda: None)` whose delivery forces a
repaint) or an ordinary queued event. -/
inductive QueuedEvent where
  | refreshTrigger
  | other (n : Nat)
deriving DecidableEq

/-- Driver-visible state across a suspend: the scroll offset and the
input generator's pending event queue. -/
structure DriverState where
  scroll_offset : Int
  queue : List QueuedEvent
deriving DecidableEq

/-- `on_suspend`: `self.window.__exit__(...)` then
`self.input_generator.__exit__(...)`; no state fields change. -/
def on_suspend (st : DriverState) : DriverState × List SusAction :=
  (st, [SusAction.exitWindow, SusAction.exitInput])

/-- `after_suspend`: `self.input_generator.__enter__()`, then
`self.window.__enter__()`, then `self.interrupting_refresh()` which
enqueues exactly one refresh-trigger event. -/
def after_suspend (st : DriverState) : DriverState × List SusAction :=
  ({ st with queue := st.queue ++ [QueuedEvent.refreshTrigger] },
   [SusAction.enterInput, SusAction.enterWindow,
    SusAction.interruptingRefresh])

/-- The resource released by an action, if any. -/
def releasedResource : SusAction → Option Resource
  | .exitWindow => Option.some Resource.window
  | .exitInput => Option.some Resource.rawInput
  | _ => Option.none

/-- The resource acquired by an action, if any. -/
def acquiredResource : SusAction → Option Resource
  | .enterWindow => Option.some Resource.window
  | .enterInput => Option.some Resource.rawInput
  | _ => Option.none

/-! ### Interactive warm-up (`FullCurtsiesRepl.mainloop`)

The interpreter namespace (`self.coderunner.interp.locals`) is modelled
as the list of bound names; `d[k] = v` binds a name, `del d[k]` removes
it. -/

/-- Bind a name (Python `d[k] = v`). -/
def nsBind (n : String) (ns : List String) : List String :=
  if n ∈ ns then ns else n :: ns

/-- Remove a name (Python `del d[k]`). -/
def nsDel (n : String) (ns : List String) : List String :=
  ns.filter (fun m => ¬ m = n)

/-- The interactive warm-up of `mainloop`: bind `_repl`; run
`from bpython.curtsiesfrontend._internal import _Helper` (binds
`_Helper`); run `help = _Helper(_repl)` (binds `help`); delete `_repl`;
delete `_Helper`. -/
def warmup (ns : List String) : List String :=
  nsDel "_Helper" (nsDel "_repl" (nsBind "help" (nsBind "_Helper"
    (nsBind "_repl" ns))))

/-- Events dispatched by `mainloop` after the warm-up: the
`RunStartupFileEvent`, the optional bootstrap paste, then the coalesced
user events. -/
inductive LoopEvent where
  | startup
  | bootstrapPaste
  | user (n : Nat)
deriving DecidableEq

/-- Dispatch a list of events in order, recording the namespace as it
stands when each event is dispatched; `upd` is the (external) effect of
dispatching an event on the namespace. -/
def dispatchTrace (upd : LoopEvent → List String → List String) :
    List String → List LoopEvent → List (LoopEvent × List String)
  | _, [] => []
  | ns, e :: rest => (e, ns) :: dispatchTrace upd (upd e ns) rest

/-- The event sequence of an interactive `mainloop` run: warm up the
namespace, then dispatch the startup event, the bootstrap paste (when
supplied), and the coalesced user events (the interleaved
`process_event(None)` repaint touches no names and is omitted). -/
def mainloopTrace (upd : LoopEvent → List String → List String)
    (ns0 : List String) (withPaste : Bool) (userEvents : List Nat) :
    List (LoopEvent × List String) :=
  dispatchTrace upd (warmup ns0)
    (LoopEvent.startup ::
      (if withPaste then [LoopEvent.bootstrapPaste] else []) ++
      userEvents.map LoopEvent.user)

/-! ## File watching (`bpython/curtsiesfrontend/filewatch.py`)

When `watchdog` imports, `ModuleChangedEventHandler` is a class; when
the import fails, it is replaced by a function accepting any arguments
and returning `None`.  `os.path` and `importcompletion.SUFFIXES` are
external; path normalization (`abspath` + suffix stripping) and
`os.path.dirname` are abstracted as parameters. -/

/-- State of a constructed `ModuleChangedEventHandler` (observer
details reduced to the set of scheduled directories). -/
structure WatchHandler where
  dirs : List (String × List String)
  modules_to_add_later : List String
  scheduled : List String
  started : Bool
  activated : Bool
deriving DecidableEq

/-- Look up the path set of a directory (`defaultdict(set)`). -/
def dirsGet (d : String) (dirs : List (String × List String)) :
    List String :=
  match dirs.find? (fun pr => pr.1 = d) with
  | Option.some pr => pr.2
  | Option.none => []

/-- `self.dirs[dirname].add(path)`. -/
def dirsAdd (d p : String) (dirs : List (String × List String)) :
    List (String × List String) :=
  match dirs.find? (fun pr => pr.1 = d) with
  | Option.some _ =>
    dirs.map (fun pr => if pr.1 = d then (pr.1, nsBind p pr.2) else pr)
  | Option.none => dirs ++ [(d, [p])]

/-- `_add_module(path)`: normalize the path (`os.path.abspath` plus the
`SUFFIXES` stripping loop, abstracted as `norm`), schedule the directory
on first sight, and record the path under its directory. -/
def addModule (norm dirname : String → String) (h : WatchHandler)
    (path : String) : WatchHandler :=
  let p := norm path
  let d := dirname p
  let h1 :=
    if (h.dirs.find? (fun pr => pr.1 = d)).isSome then h
    else { h with scheduled := h.scheduled ++ [d] }
  { h1 with dirs := dirsAdd d p h1.dirs }

/-- `track_module(path)`: begin tracking immediately when activated,
otherwise remember the path for later. -/
def track_module (norm dirname : String → String) (h : WatchHandler)
    (path : String) : WatchHandler :=
  if h.activated then addModule norm dirname h path
  else { h with modules_to_add_later := h.modules_to_add_later ++ [path] }

/-- `activate()`: a `ValueError` (modelled as `Except.error`) when
already activated; otherwise start the observer once, schedule all known
directories, add the deferred modules, clear them, and set the flag. -/
def activate (norm dirname : String → String) (h : WatchHandler) :
    Except String WatchHandler :=
  if h.activated then Except.error "already activated"
  else
    let h1 := if h.started then h else { h with started := true }
    let h2 := { h1 with scheduled := h1.scheduled ++ h1.dirs.map Prod.fst }
    let h3 := h2.modules_to_add_later.foldl (addModule norm dirname) h2
    Except.ok { h3 with modules_to_add_later := [], activated := true }

/-- The result of calling `ModuleChangedEventHandler(...)`: `None` when
the `watchdog` import failed, otherwise a constructed handler. -/
inductive WatchCollab where
  | absent
  | present (h : WatchHandler)
deriving DecidableEq

/-- `ModuleChangedEventHandler(*args)`: the fallback function returns
`None` for any arguments when `watchdog` is unavailable; otherwise the
class constructor runs `_add_module` on every initial path. -/
def ModuleChangedEventHandler (watchdogAvailable : Bool)
    (norm dirname : String → String) (paths : List String) :
    WatchCollab :=
  if watchdogAvailable then
    WatchCollab.present
      (paths.foldl (addModule norm dirname)
        { dirs := [], modules_to_add_later := [], scheduled := [],
          started := false, activated := false })
  else WatchCollab.absent

/-- Modelled from the spec: the repository's callers of the file-watch
collaborator (in `bpython/curtsiesfrontend/repl.py`, not under `src/`)
invoke tracking only through the constructed collaborator, and "absence
of the underlying notification service degrades gracefully to a no-op
(tracking/activation calls become no-ops; no error)". -/
def trackModuleCall (norm dirname : String → String) (c : WatchCollab)
    (path : String) : WatchCollab :=
  match c with
  | .absent => .absent
  | .present h => .present (track_module norm dirname h path)

/-- Modelled from the spec: activation through the collaborator; on an
absent service it is a no-op and raises no error. -/
def activateCall (norm dirname : String → String) (c : WatchCollab) :
    Except String WatchCollab :=
  match c with
  | .absent => Except.ok WatchCollab.absent
  | .present h => (activate norm dirname h).map WatchCollab.present

/-! ## Theorems: the event coalescer -/

/-- The probing loop consumes exactly the leading run of keystrokes,
appends them to the queue in order, and consumes — but discards — the
raw unit that stopped it. -/
theorem probe_keys (ks : List Nat) (s : RawUnit) (rest : List RawUnit)
    (hs : s.isKey = false) :
    ∀ acc, probe (ks.map RawUnit.key ++ s :: rest) acc = (acc ++ ks, rest) := by
  induction ks with
  | nil =>
    intro acc
    cases s with
    | ev t => simp [probe]
    | timeout => simp [probe]
    | key k => simp [RawUnit.isKey] at hs
  | cons k ks ih =>
    intro acc
    simp only [List.map_cons, List.cons_append, probe]
    rw [show (List.map RawUnit.key ks).append (s :: rest)
          = List.map RawUnit.key ks ++ s :: rest from rfl, ih (acc ++ [k])]
    simp

/-- One full outer cycle of `_combined_events` on a maximal keystroke
run: the first keystroke arrives from the blocking fetch, the rest are
probed, the stopping unit `s` is consumed and discarded, and the queue is
flushed by the threshold rule. -/
theorem runCoalescer_key_run (threshold fuel k : Nat) (ks : List Nat)
    (s : RawUnit) (rest : List RawUnit) (hs : s.isKey = false) :
    runCoalescer threshold (fuel + 1)
        (RawUnit.key k :: (ks.map RawUnit.key ++ s :: rest))
      = (if threshold ≤ ks.length + 1 then [Output.paste (k :: ks)]
         else (k :: ks).map Output.key)
        ++ runCoalescer threshold fuel rest := by
  simp only [runCoalescer, probe_keys ks s rest hs [k]]
  simp

/-- C1 (counterexample): feeding `[Keystroke(1), StructuredEvent(9)]`
with `paste_threshold = 3`, the structured event halts probing and the
keystroke is replayed — but the structured event is *not* emitted on the
following cycle (that cycle fetches afresh and, with no pending input,
yields `None`): the raw unit is dropped, contradicting the claim. -/
theorem coalescer_c1_counterexample :
    runCoalescer 3 4 [RawUnit.key 1, RawUnit.ev 9]
      = [Output.key 1, Output.none, Output.none, Output.none]
    ∧ Output.ev 9 ∉ runCoalescer 3 4 [RawUnit.key 1, RawUnit.ev 9] := by
  constructor
  · rfl
  · decide

/-- C1 (amended): when a structured event arrives while probing for
further keystrokes, accumulation halts immediately and the already
queued keystrokes are emitted per the threshold rule without the
structured event ever becoming part of a `PasteBlock` (the emitted
prefix contains no structured event at all); however the structured
event that stopped the probe is consumed and *discarded* by the
coalescer — the following cycle resumes from the remaining input, so
that raw unit is dropped rather than re-emitted. -/
theorem coalescer_c1_structured_event_halts (threshold fuel k t : Nat)
    (ks : List Nat) (rest : List RawUnit) :
    runCoalescer threshold (fuel + 1)
        (RawUnit.key k :: (ks.map RawUnit.key ++ RawUnit.ev t :: rest))
      = (if threshold ≤ ks.length + 1 then [Output.paste (k :: ks)]
         else (k :: ks).map Output.key)
        ++ runCoalescer threshold fuel rest
    ∧ ∀ u, Output.ev u ∉
        (if threshold ≤ ks.length + 1 then [Output.paste (k :: ks)]
         else (k :: ks).map Output.key) := by
  refine ⟨runCoalescer_key_run threshold fuel k ks (RawUnit.ev t) rest rfl, ?_⟩
  intro u
  by_cases h : threshold ≤ ks.length + 1 <;> simp [h]

/-- C2: a maximal run of raw keystrokes with no intervening structured
event or timeout is flushed by the threshold rule — individually and in
original order below `paste_threshold`, as exactly one `PasteBlock`
holding all of them in original order at or above it; in particular
`[Keystroke(a), Keystroke(b), Keystroke(c), Timeout]` with
`paste_threshold = 3` yields `PasteBlock([a, b, c])` and then `None`. -/
theorem coalescer_c2_threshold_rule :
    (∀ a b c : Nat,
      runCoalescer 3 2
          [RawUnit.key a, RawUnit.key b, RawUnit.key c, RawUnit.timeout]
        = [Output.paste [a, b, c], Output.none])
    ∧ ∀ (threshold fuel k : Nat) (ks : List Nat) (s : RawUnit)
        (rest : List RawUnit), s.isKey = false →
        runCoalescer threshold (fuel + 1)
            (RawUnit.key k :: (ks.map RawUnit.key ++ s :: rest))
          = (if threshold ≤ ks.length + 1 then [Output.paste (k :: ks)]
             else (k :: ks).map Output.key)
            ++ runCoalescer threshold fuel rest := by
  constructor
  · intro a b c
    have h := runCoalescer_key_run 3 1 a [b, c] RawUnit.timeout [] rfl
    simpa [runCoalescer] using h
  · intro threshold fuel k ks s rest hs
    exact runCoalescer_key_run threshold fuel k ks s rest hs

/-- Witness for `coalescer_c2_threshold_rule` at a short run: two
keystrokes under threshold 5 are replayed individually. -/
theorem coalescer_c2_threshold_rule_witness :
    RawUnit.isKey RawUnit.timeout = false ∧
    runCoalescer 5 1
        (RawUnit.key 7 :: ([8].map RawUnit.key ++ RawUnit.timeout :: []))
      = (if 5 ≤ [8].length + 1 then [Output.paste (7 :: [8])]
         else (7 :: [8]).map Output.key) ++ runCoalescer 5 0 [] :=
  ⟨rfl, coalescer_c2_threshold_rule.2 5 0 7 [8] RawUnit.timeout [] rfl⟩

/-! ## Theorems: indentation repair -/

theorem minByLen_nil_left (b : List Char) : minByLen [] b = [] := by
  simp [minByLen]

theorem minByLen_nil_right (a : List Char) : minByLen a [] = [] := by
  cases a <;> simp [minByLen]

theorem minByLen_eq_nil {a b : List Char} (h : minByLen a b = []) :
    a = [] ∨ b = [] := by
  unfold minByLen at h
  split at h
  · exact Or.inr h
  · exact Or.inl h

theorem minByLen_cases (a b : List Char) :
    minByLen a b = a ∨ minByLen a b = b := by
  unfold minByLen
  split
  · exact Or.inr rfl
  · exact Or.inl rfl

theorem fixLine_ne {l : List Char} (p n : List Char) (h : ¬ l = []) :
    fixLine p l n = l := by
  simp [fixLine, h]

theorem fixLine_nil (p n : List Char) :
    fixLine p [] n = minByLen (wsRun p) (wsRun n) := by
  simp [fixLine]

theorem wsRun_nil : wsRun [] = [] := rfl

/-- `fixLines` on a nonempty list: the head is fixed against the head of
the tail (or the synthetic `""`), the tail is processed with the
*original* head as previous line. -/
theorem fixLines_cons (p a : List Char) (T : List (List Char)) :
    fixLines p (a :: T) = fixLine p a (T.headD []) :: fixLines a T := by
  cases T <;> simp [fixLines]

/-- The head of a processed list, uniformly (for an empty list both
sides are `[]` because `fixLine p [] []` collapses to `[]`). -/
theorem fixLines_headD (p : List Char) (T : List (List Char)) :
    (fixLines p T).headD []
      = fixLine p (T.headD []) ((T.drop 1).headD []) := by
  cases T with
  | nil => simp [fixLines, fixLine_nil, minByLen_nil_right, wsRun_nil]
  | cons a T' => simp [fixLines_cons]

theorem fixLines_length (p : List Char) (T : List (List Char)) :
    (fixLines p T).length = T.length := by
  induction T generalizing p with
  | nil => simp [fixLines]
  | cons a T' ih => simp [fixLines_cons, ih]

theorem fixLines_ne_nil (p : List Char) {T : List (List Char)}
    (h : ¬ T = []) : ¬ fixLines p T = [] := by
  intro hc
  apply h
  have := fixLines_length p T
  rw [hc] at this
  exact List.length_eq_zero.mp this.symm

/-- The `zip(prevs, lines, nexts)` formulation equals the recursive
one. -/
theorem fixLinesZip_eq_fixLines :
    ∀ (lines : List (List Char)) (p : List Char),
      (List.zip (p :: lines) (List.zip lines (lines.drop 1 ++ [[]]))).map
          (fun pln => fixLine pln.1 pln.2.1 pln.2.2)
        = fixLines p lines := by
  intro lines
  induction lines with
  | nil => intro p; simp [fixLines]
  | cons l ls ih =>
    intro p
    cases ls with
    | nil => simp [fixLines]
    | cons n rest =>
      have h := ih l
      simp only [List.drop_succ_cons, List.drop_zero] at h
      simp only [List.drop_succ_cons, List.drop_zero, List.cons_append,
        List.zip_cons_cons, List.map_cons, fixLines]
      rw [← h]

/-- Core idempotence: re-processing a processed list changes nothing,
provided the pass-two previous line is what pass one made of the
pass-one previous line (`fixLine q p (head)`). -/
theorem fixLines_fix (ls : List (List Char)) :
    ∀ p q, fixLines (fixLine q p (ls.headD [])) (fixLines p ls)
      = fixLines p ls := by
  induction ls with
  | nil => intro p q; simp [fixLines]
  | cons l ls' ih =>
    intro p q
    rw [fixLines_cons p l ls',
      fixLines_cons (fixLine q p ((l :: ls').headD []))
        (fixLine p l (ls'.headD [])) (fixLines l ls'),
      ih l p, fixLines_headD]
    simp only [List.headD_cons]
    congr 1
    by_cases hl : l = []
    · subst hl
      rw [fixLine_nil p (ls'.headD [])]
      by_cases h1 : minByLen (wsRun p) (wsRun (ls'.headD [])) = []
      · rw [h1, fixLine_nil]
        rcases minByLen_eq_nil h1 with hp | hn
        · have hp2 : wsRun (fixLine q p []) = [] := by
            by_cases hpn : p = []
            · subst hpn
              rw [fixLine_nil q [], wsRun_nil, minByLen_nil_right]
              rfl
            · rw [fixLine_ne q [] hpn]
              exact hp
          rw [hp2]
          exact minByLen_nil_left _
        · have hn2 : wsRun (fixLine [] (ls'.headD [])
              ((ls'.drop 1).headD [])) = [] := by
            by_cases hh : ls'.headD [] = []
            · rw [hh, fixLine_nil [] ((ls'.drop 1).headD []), wsRun_nil,
                minByLen_nil_left]
              rfl
            · rw [fixLine_ne [] ((ls'.drop 1).headD []) hh]
              exact hn
          rw [hn2]
          exact minByLen_nil_right _
      · exact fixLine_ne _ _ h1
    · rw [fixLine_ne p (ls'.headD []) hl]
      exact fixLine_ne _ _ hl

theorem splitNl_ne_nil (s : List Char) : ¬ splitNl s = [] := by
  cases s with
  | nil => simp [splitNl]
  | cons c rest =>
    by_cases h : c = '\n'
    · simp [splitNl, h]
    · simp only [splitNl, h, if_false]
      cases hr : splitNl rest <;> simp

theorem mem_splitNl_no_nl (s : List Char) :
    ∀ l ∈ splitNl s, '\n' ∉ l := by
  induction s with
  | nil =>
    intro l hl
    simp [splitNl] at hl
    simp [hl]
  | cons c rest ih =>
    intro l hl
    by_cases h : c = '\n'
    · simp only [splitNl, h, if_true, List.mem_cons] at hl
      rcases hl with h1 | h1
      · simp [h1]
      · exact ih l h1
    · simp only [splitNl, h, if_false] at hl
      cases hr : splitNl rest with
      | nil => exact absurd hr (splitNl_ne_nil rest)
      | cons l0 ls0 =>
        rw [hr] at hl
        simp only [List.mem_cons] at hl
        rcases hl with h1 | h1
        · subst h1
          intro hmem
          rcases List.mem_cons.mp hmem with h2 | h2
          · exact h (h2.symm)
          · exact ih l0 (by rw [hr]; simp) h2
        · exact ih l (by rw [hr]; simp [h1])

theorem splitNl_no_nl {l : List Char} (h : '\n' ∉ l) :
    splitNl l = [l] := by
  induction l with
  | nil => rfl
  | cons c rest ih =>
    have hc : ¬ c = '\n' := by
      intro hc
      exact h (by simp [hc])
    have hr : splitNl rest = [rest] := ih (fun hm => h (by simp [hm]))
    simp [splitNl, hc, hr]

theorem splitNl_append_cons {l : List Char} (rest : List Char)
    (h : '\n' ∉ l) :
    splitNl (l ++ '\n' :: rest) = l :: splitNl rest := by
  induction l with
  | nil => simp [splitNl]
  | cons c l' ih =>
    have hc : ¬ c = '\n' := by
      intro hc
      exact h (by simp [hc])
    have hr := ih (fun hm => h (by simp [hm]))
    simp only [List.cons_append, splitNl, hc, if_false, List.append_eq, hr]

theorem splitNl_joinNl {L : List (List Char)} (hne : ¬ L = [])
    (hnl : ∀ l ∈ L, '\n' ∉ l) : splitNl (joinNl L) = L := by
  induction L with
  | nil => exact absurd rfl hne
  | cons l ls ih =>
    cases ls with
    | nil =>
      simp only [joinNl]
      exact splitNl_no_nl (hnl l (by simp))
    | cons l2 ls' =>
      rw [show joinNl (l :: l2 :: ls') = l ++ '\n' :: joinNl (l2 :: ls')
        from rfl]
      rw [splitNl_append_cons _ (hnl l (by simp))]
      rw [ih (by simp) (fun m hm => hnl m (by simp [hm]))]

theorem splitNl_concat_nl (x : List Char) :
    splitNl (x ++ ['\n']) = splitNl x ++ [[]] := by
  induction x with
  | nil => rfl
  | cons c x' ih =>
    by_cases h : c = '\n'
    · simp only [List.cons_append, splitNl, h, if_true, List.append_eq, ih]
    · simp only [List.cons_append, splitNl, h, if_false, List.append_eq, ih]
      cases hr : splitNl x' with
      | nil => exact absurd hr (splitNl_ne_nil x')
      | cons l0 ls0 => simp [hr]

theorem splitNl_eq_single_nil {s : List Char}
    (h : splitNl s = [[]]) : s = [] := by
  cases s with
  | nil => rfl
  | cons c rest =>
    by_cases hc : c = '\n'
    · simp only [splitNl, hc, if_true] at h
      have : splitNl rest = [] := by
        injection h
      exact absurd this (splitNl_ne_nil rest)
    · simp only [splitNl, hc, if_false] at h
      cases hr : splitNl rest with
      | nil => exact absurd hr (splitNl_ne_nil rest)
      | cons l0 ls0 =>
        rw [hr] at h
        injection h with h1 _
        exact absurd h1 (by simp)

/-- A character of a whitespace run comes from the line itself. -/
theorem mem_wsRun {c : Char} : ∀ {l : List Char}, c ∈ wsRun l → c ∈ l := by
  intro l
  induction l with
  | nil => intro h; exact absurd h (by simp [wsRun])
  | cons a l' ih =>
    intro h
    unfold wsRun List.takeWhile at h
    by_cases ha : isPySpace a
    · rw [ha] at h
      rcases List.mem_cons.mp h with h1 | h1
      · simp [h1]
      · exact List.mem_cons_of_mem a (ih h1)
    · rw [Bool.not_eq_true] at ha
      rw [ha] at h
      exact absurd h (by simp)

/-- Processing lines introduces no newline characters. -/
theorem fixLines_no_nl :
    ∀ (ls : List (List Char)) (p : List Char), '\n' ∉ p →
      (∀ l ∈ ls, '\n' ∉ l) → ∀ m ∈ fixLines p ls, '\n' ∉ m := by
  intro ls
  induction ls with
  | nil => intro p _ _ m hm; simp [fixLines] at hm
  | cons l ls' ih =>
    intro p hp hls m hm
    rw [fixLines_cons] at hm
    have hl : '\n' ∉ l := hls l (by simp)
    have hhead : '\n' ∉ ls'.headD [] := by
      cases ls' with
      | nil => simp
      | cons a _ => exact hls a (by simp)
    rcases List.mem_cons.mp hm with h1 | h1
    · subst h1
      by_cases he : l = []
      · rw [he, fixLine_nil]
        intro hmem
        rcases minByLen_cases (wsRun p) (wsRun (ls'.headD [])) with hc | hc
        · rw [hc] at hmem
          exact hp (mem_wsRun hmem)
        · rw [hc] at hmem
          exact hhead (mem_wsRun hmem)
      · rw [fixLine_ne _ _ he]
        exact hl
    · exact ih l hl (fun x hx => hls x (by simp [hx])) m h1

/-- The last processed line is empty iff the last original line is. -/
theorem fixLines_getLast_nil_iff :
    ∀ (ls : List (List Char)) (p : List Char), ¬ ls = [] →
      ((fixLines p ls).getLast? = some [] ↔ ls.getLast? = some []) := by
  intro ls
  induction ls with
  | nil => intro p h; exact absurd rfl h
  | cons l ls' ih =>
    intro p _
    cases ls' with
    | nil =>
      simp only [fixLines, List.getLast?_singleton, Option.some.injEq]
      constructor
      · intro h
        by_cases he : l = []
        · exact he
        · rw [fixLine_ne _ _ he] at h
          exact h
      · intro h
        rw [h, fixLine_nil, wsRun_nil, minByLen_nil_right]
    | cons n rest =>
      rw [fixLines_cons p l (n :: rest), fixLines_cons l n rest,
        List.getLast?_cons_cons]
      have htail := ih l (by simp)
      rw [fixLines_cons l n rest] at htail
      exact htail

/-- `fixLinesZip` agrees with the recursive formulation. -/
theorem fixLinesZip_eq (L : List (List Char)) :
    fixLinesZip L = fixLines [] L :=
  fixLinesZip_eq_fixLines L []

/-- `indent_empty_lines` in terms of the recursive line processor (the
`initial ≠ []` half of the source's condition is always true because
`split` never returns an empty list). -/
theorem indent_empty_lines_eq (s : List Char) :
    indent_empty_lines s =
      if (splitNl s).getLast? = some [] then
        joinNl (fixLines [] (splitNl s).dropLast) ++ ['\n']
      else joinNl (fixLines [] (splitNl s)) := by
  simp only [indent_empty_lines, fixLinesZip_eq]
  simp [splitNl_ne_nil s]

/-- Top-level core idempotence: with the synthetic empty previous line,
reprocessing is the identity. -/
theorem fixLines_idem (L : List (List Char)) :
    fixLines [] (fixLines [] L) = fixLines [] L := by
  have h := fixLines_fix L [] []
  have h0 : fixLine [] [] (L.headD []) = [] := by
    rw [fixLine_nil, wsRun_nil, minByLen_nil_left]
  rw [h0] at h
  exact h

/-- C6: indentation repair is idempotent — for every input text,
applying `indent_empty_lines` twice yields the same output as applying
it once. -/
theorem indent_empty_lines_c6_idempotent (s : List Char) :
    indent_empty_lines (indent_empty_lines s) = indent_empty_lines s := by
  rw [indent_empty_lines_eq s]
  by_cases hlast : (splitNl s).getLast? = some []
  · rw [if_pos hlast]
    by_cases hpop : (splitNl s).dropLast = []
    · have hs : s = [] := by
        apply splitNl_eq_single_nil
        cases hL0 : splitNl s with
        | nil => exact absurd hL0 (splitNl_ne_nil s)
        | cons x t =>
          cases t with
          | nil =>
            rw [hL0] at hlast
            simp only [List.getLast?_singleton, Option.some.injEq] at hlast
            rw [hlast]
          | cons y t' =>
            rw [hL0] at hpop
            exact absurd hpop (by simp)
      subst hs
      rfl
    · have hL'ne : ¬ fixLines [] (splitNl s).dropLast = [] :=
        fixLines_ne_nil [] hpop
      have hnl : ∀ m ∈ fixLines [] (splitNl s).dropLast, '\n' ∉ m :=
        fixLines_no_nl _ [] (by simp)
          (fun l hl => mem_splitNl_no_nl s l
            ((List.dropLast_sublist (splitNl s)).subset hl))
      rw [indent_empty_lines_eq
        (joinNl (fixLines [] (splitNl s).dropLast) ++ ['\n'])]
      rw [splitNl_concat_nl, splitNl_joinNl hL'ne hnl,
        List.getLast?_concat, if_pos rfl, List.dropLast_concat,
        fixLines_idem]
  · rw [if_neg hlast]
    have hLne := splitNl_ne_nil s
    have hL'ne : ¬ fixLines [] (splitNl s) = [] :=
      fixLines_ne_nil [] hLne
    have hnl : ∀ m ∈ fixLines [] (splitNl s), '\n' ∉ m :=
      fixLines_no_nl _ [] (by simp) (mem_splitNl_no_nl s)
    rw [indent_empty_lines_eq (joinNl (fixLines [] (splitNl s)))]
    rw [splitNl_joinNl hL'ne hnl]
    have hlast2 : ¬ (fixLines [] (splitNl s)).getLast? = some [] :=
      fun hc =>
        hlast ((fixLines_getLast_nil_iff (splitNl s) [] hLne).mp hc)
    rw [if_neg hlast2, fixLines_idem]

/-- Tab expansion introduces no newline. -/
theorem tabLine_no_nl {l : List Char} (h : '\n' ∉ l) :
    '\n' ∉ tabLine l := by
  unfold tabLine
  intro hmem
  rcases List.mem_append.mp hmem with h1 | h1
  · exact absurd (List.eq_of_mem_replicate h1) (by decide)
  · exact h (List.drop_subset _ _ h1)

theorem headD_eq_getD (ls : List (List Char)) :
    ls.headD [] = ls.getD 0 [] := by
  cases ls <;> simp

/-- Indexed characterization of the repair: within bounds, an empty
line becomes the shorter of its original neighbours' whitespace runs
(the synthetic previous line of line 0 is `p`, the synthetic next line
of the last line is `""`), and a non-empty line is unchanged. -/
theorem fixLines_getD :
    ∀ (ls : List (List Char)) (p : List Char) (i : Nat),
      i < ls.length →
      (fixLines p ls).getD i [] =
        if ls.getD i [] = [] then
          minByLen (wsRun ((p :: ls).getD i []))
            (wsRun (ls.getD (i + 1) []))
        else ls.getD i [] := by
  intro ls
  induction ls with
  | nil => intro p i h; simp at h
  | cons l ls' ih =>
    intro p i h
    rw [fixLines_cons]
    cases i with
    | zero =>
      simp only [List.getD_cons_zero, List.getD_cons_succ]
      rw [headD_eq_getD] at *
      by_cases he : l = []
      · rw [if_pos he, he, fixLine_nil]
      · rw [if_neg he, fixLine_ne _ _ he]
    | succ i =>
      simp only [List.getD_cons_succ]
      exact ih l i (by simpa using h)

/-- C7: the preprocessing pipeline first expands each leading run of
tabs to four spaces per tab (per line), then rewrites every blank
(empty) line to carry the shorter — by character count — of the
neighbouring lines' leading-whitespace runs, leaving non-blank lines
unchanged.  (`minByLen` returns one of the two whitespace runs and its
length is the minimum of their lengths; Python's `min` takes the
previous line's run on ties.) -/
theorem preprocess_c7_pipeline :
    (∀ s, preprocess s = indent_empty_lines (leading_tabs_to_spaces s))
    ∧ (∀ s, splitNl (leading_tabs_to_spaces s) = (splitNl s).map tabLine)
    ∧ (∀ a b : List Char, (minByLen a b = a ∨ minByLen a b = b)
        ∧ (minByLen a b).length = min a.length b.length)
    ∧ (∀ (p : List Char) (ls : List (List Char)) (i : Nat),
        i < ls.length →
        (fixLines p ls).getD i [] =
          if ls.getD i [] = [] then
            minByLen (wsRun ((p :: ls).getD i []))
              (wsRun (ls.getD (i + 1) []))
          else ls.getD i []) := by
  refine ⟨fun s => rfl, ?_, ?_, fun p ls i h => fixLines_getD ls p i h⟩
  · intro s
    unfold leading_tabs_to_spaces
    apply splitNl_joinNl
    · intro hc
      exact splitNl_ne_nil s (List.map_eq_nil_iff.mp hc)
    · intro m hm
      rcases List.mem_map.mp hm with ⟨l, hl, hml⟩
      rw [← hml]
      exact tabLine_no_nl (mem_splitNl_no_nl s l hl)
  · intro a b
    constructor
    · exact minByLen_cases a b
    · unfold minByLen
      split <;> omega

/-- Witness for `preprocess_c7_pipeline`: the blank middle line of
`["a", "", " b"]` receives the empty whitespace run of `"a"` (the
shorter neighbour run). -/
theorem preprocess_c7_pipeline_witness :
    (1 : Nat) < ([['a'], [], [' ', 'b']] : List (List Char)).length
    ∧ (fixLines [] [['a'], [], [' ', 'b']]).getD 1 [] =
        if ([['a'], [], [' ', 'b']] : List (List Char)).getD 1 [] = [] then
          minByLen (wsRun (([] :: [['a'], [], [' ', 'b']] :
              List (List Char)).getD 1 []))
            (wsRun (([['a'], [], [' ', 'b']] : List (List Char)).getD 2 []))
        else ([['a'], [], [' ', 'b']] : List (List Char)).getD 1 [] :=
  ⟨by decide,
   preprocess_c7_pipeline.2.2.2 [] [['a'], [], [' ', 'b']] 1 (by decide)⟩

/-! ## Theorems: shorthand desugaring -/

/-- C5: `"x!f"` desugars to `"f(x)"` and generally, when the
letter-stripped source still ends in `!`, `left!right` (split at the
last `!`) becomes `right(left)`; a line ending in `??` desugars to a
statement printing the first name-or-attribute reference's docstring (or
its no-docstring fallback); when the source before `??` fails to parse
or yields no identifier, the result is a fallback print naming the
failure (`invalid syntax` / `no identifier names in source`).  `desugar`
is a total function — the `DesugaringException` values are caught and
rendered, never propagated. -/
theorem desugar_c5_shorthand :
    (∀ parse, desugar parse "x!f".toList = "f(x)".toList)
    ∧ (∀ parse src left right,
        ¬ ['?', '?'].isSuffixOf src = true →
        ['!'].isSuffixOf (pyStrip (fun c => c ∈ asciiLetters) src) = true →
        rpartition '!' src = (left, right) →
        desugar parse src = right ++ '(' :: left ++ [')'])
    ∧ (∀ parse src t id rest,
        ['?', '?'].isSuffixOf src = true →
        parse (removesuffix ['?', '?'] (pyStrip isPyStripSpace src))
          = Option.some t →
        visitAst t = id :: rest →
        desugar parse src = docMsg id)
    ∧ (∀ parse src,
        ['?', '?'].isSuffixOf src = true →
        parse (removesuffix ['?', '?'] (pyStrip isPyStripSpace src))
          = Option.none →
        desugar parse src = fallbackMsg invalidSyntaxMsg)
    ∧ (∀ parse src t,
        ['?', '?'].isSuffixOf src = true →
        parse (removesuffix ['?', '?'] (pyStrip isPyStripSpace src))
          = Option.some t →
        visitAst t = [] →
        desugar parse src = fallbackMsg noIdentifierMsg) := by
  refine ⟨fun parse => rfl, ?_, ?_, ?_, ?_⟩
  · intro parse src left right hqq hbang hpart
    simp [desugar, hqq, hbang, hpart]
  · intro parse src t id rest hqq hparse hvisit
    simp [desugar, find_first_identifier, hqq, hparse, hvisit]
  · intro parse src hqq hparse
    simp [desugar, find_first_identifier, hqq, hparse]
  · intro parse src t hqq hparse hvisit
    simp [desugar, find_first_identifier, hqq, hparse, hvisit]

/-- Witness for `desugar_c5_shorthand`: the pipe sugar on `"x!f"`, and
`"foo??"` under a parser that yields `Module([Name("foo")])`, a parser
that fails, and a parser that yields an identifier-free tree. -/
theorem desugar_c5_shorthand_witness :
    desugar (fun _ => Option.none) "x!f".toList = "f(x)".toList
    ∧ desugar (fun s => if s = "foo".toList
          then Option.some (Ast.node [Ast.name "foo".toList])
          else Option.none) "foo??".toList = docMsg "foo".toList
    ∧ desugar (fun _ => Option.none) "foo??".toList
        = fallbackMsg invalidSyntaxMsg
    ∧ desugar (fun _ => Option.some (Ast.node [])) "foo??".toList
        = fallbackMsg noIdentifierMsg :=
  ⟨desugar_c5_shorthand.1 (fun _ => Option.none),
   desugar_c5_shorthand.2.2.1 (fun s => if s = "foo".toList
       then Option.some (Ast.node [Ast.name "foo".toList])
       else Option.none) "foo??".toList (Ast.node [Ast.name "foo".toList])
     "foo".toList [] rfl rfl rfl,
   desugar_c5_shorthand.2.2.2.1 (fun _ => Option.none) "foo??".toList
     rfl rfl,
   desugar_c5_shorthand.2.2.2.2 (fun _ => Option.some (Ast.node []))
     "foo??".toList (Ast.node []) rfl rfl rfl⟩

/-! ## Theorems: the session driver -/

/-- C3: when dispatching an event raises a session-terminating exception
(`SystemExitFromCodeGreenlet` or `SystemExit`), `process_event` paints
exactly one final frame — `about_to_exit=True` with the `user_quit` flag
distinguishing the two exception classes — and re-raises the very same
exception; which class was raised changes only the paint arguments,
never whether or what is propagated. -/
theorem process_event_c3_final_paint
    (dispatch : Nat → Option TerminationExc)
    (renderScroll : PaintArgs → Int) (off : Int) (ev : Nat)
    (err : TerminationExc) (h : dispatch ev = Option.some err) :
    process_event dispatch renderScroll off (Option.some ev)
      = (off + renderScroll ⟨true, err.userQuitFlag⟩, Option.some err,
         [⟨true, err.userQuitFlag⟩]) := by
  simp [process_event, h]

/-- Witness for `process_event_c3_final_paint`: a code-initiated
`SystemExit` with payload 2 propagates unchanged after one final paint. -/
theorem process_event_c3_final_paint_witness :
    (fun _ : Nat => Option.some (TerminationExc.fromSystemExit 2)) 5
      = Option.some (TerminationExc.fromSystemExit 2) ∧
    process_event (fun _ => Option.some (TerminationExc.fromSystemExit 2))
        (fun _ => 1) 10 (Option.some 5)
      = (10 + (fun _ : PaintArgs => (1 : Int))
            ⟨true, (TerminationExc.fromSystemExit 2).userQuitFlag⟩,
         Option.some (TerminationExc.fromSystemExit 2),
         [⟨true, (TerminationExc.fromSystemExit 2).userQuitFlag⟩]) :=
  ⟨rfl, process_event_c3_final_paint
    (fun _ => Option.some (TerminationExc.fromSystemExit 2))
    (fun _ => 1) 10 5 (TerminationExc.fromSystemExit 2) rfl⟩

/-- Unfolding of one loop cycle: every cycle paints once and adds its
scroll amount; a termination stops the loop after that paint. -/
theorem runLoop_cons (dispatch : Nat → Option TerminationExc)
    (e : Option Nat) (amt : Int) (rest : List (Option Nat × Int))
    (off : Int) :
    runLoop dispatch ((e, amt) :: rest) off
      = if (process_event dispatch (fun _ => amt) off e).2.1.isSome
        then (off + amt, [amt])
        else ((runLoop dispatch rest (off + amt)).1,
              amt :: (runLoop dispatch rest (off + amt)).2) := by
  cases e with
  | none => simp [runLoop, process_event]
  | some ev => cases h : dispatch ev <;> simp [runLoop, process_event, h]

/-- C8: across any run of the loop the final `scroll_offset` equals its
initial value plus the sum of the per-paint scroll amounts actually
painted (the final termination paint included), and — when the renderer
reports only non-negative scroll amounts — `scroll_offset` is
monotonically non-decreasing across the session lifetime (each further
cycle can only increase it). -/
theorem runLoop_c8_scroll_offset
    (dispatch : Nat → Option TerminationExc)
    (inputs : List (Option Nat × Int)) (off : Int) :
    ((runLoop dispatch inputs off).1
        = off + ((runLoop dispatch inputs off).2).sum)
    ∧ ((∀ p ∈ inputs, (0 : Int) ≤ p.2) → ∀ n,
        (runLoop dispatch (inputs.take n) off).1
          ≤ (runLoop dispatch (inputs.take (n + 1)) off).1) := by
  constructor
  · induction inputs generalizing off with
    | nil => simp [runLoop]
    | cons p rest ih =>
      obtain ⟨e, amt⟩ := p
      rw [runLoop_cons]
      by_cases h : (process_event dispatch (fun _ => amt) off e).2.1.isSome
      · simp [h]
      · simp only [h, if_false]
        rw [ih (off + amt)]
        simp
        ring
  · induction inputs generalizing off with
    | nil => intro _ n; simp
    | cons p rest ih =>
      obtain ⟨e, amt⟩ := p
      intro hnn n
      have hamt : (0 : Int) ≤ amt := hnn (e, amt) (by simp)
      cases n with
      | zero =>
        simp only [List.take_zero, List.take_succ_cons]
        rw [runLoop_cons]
        by_cases h : (process_event dispatch (fun _ => amt) off e).2.1.isSome
        · simp [h, runLoop]
          linarith
        · simp [h, runLoop]
          linarith
      | succ n =>
        simp only [List.take_succ_cons]
        rw [runLoop_cons, runLoop_cons]
        by_cases h : (process_event dispatch (fun _ => amt) off e).2.1.isSome
        · simp [h]
        · simp only [h, if_false]
          exact ih (off + amt) (fun q hq => hnn q (by simp [hq])) n

/-- Witness for `runLoop_c8_scroll_offset`: a three-cycle session ending
in a code exit, with non-negative scroll amounts. -/
theorem runLoop_c8_scroll_offset_witness :
    ((runLoop (fun k => if k = 9 then
          Option.some (TerminationExc.fromSystemExit 0) else Option.none)
        [(Option.none, 1), (Option.some 4, 2), (Option.some 9, 3)] 5).1
      = 5 + ((runLoop (fun k => if k = 9 then
          Option.some (TerminationExc.fromSystemExit 0) else Option.none)
        [(Option.none, 1), (Option.some 4, 2), (Option.some 9, 3)] 5).2).sum)
    ∧ (runLoop (fun k => if k = 9 then
          Option.some (TerminationExc.fromSystemExit 0) else Option.none)
        ([(Option.none, 1), (Option.some 4, 2), (Option.some 9, 3)].take 1) 5).1
        ≤ (runLoop (fun k => if k = 9 then
          Option.some (TerminationExc.fromSystemExit 0) else Option.none)
        ([(Option.none, 1), (Option.some 4, 2), (Option.some 9, 3)].take 2) 5).1 :=
  ⟨(runLoop_c8_scroll_offset _ _ 5).1,
   (runLoop_c8_scroll_offset _ _ 5).2 (by decide) 1⟩

/-- C4 (counterexample): `on_suspend` releases the window first and the
raw-mode input capture second, but `after_suspend` reacquires the input
capture first and the window second — the *reverse* order, not "the same
order they were released" as claimed. -/
theorem suspend_c4_counterexample :
    ¬ ((after_suspend ⟨0, []⟩).2.filterMap acquiredResource
        = (on_suspend ⟨0, []⟩).2.filterMap releasedResource) := by
  decide

/-- C4 (amended): on suspend the driver releases the exclusive window
access and then the raw-mode input capture; on resume it reacquires both
in the *reverse* of the release order (input capture first, then
window), then synthesizes exactly one immediate refresh event, appended
to the pending-event queue before the next paint; suspend followed by
resume leaves `scroll_offset` unchanged. -/
theorem suspend_c4_amended (st : DriverState) :
    ((after_suspend (on_suspend st).1).2.filterMap acquiredResource
        = ((on_suspend st).2.filterMap releasedResource).reverse)
    ∧ ((after_suspend (on_suspend st).1).1).scroll_offset
        = st.scroll_offset
    ∧ ((after_suspend (on_suspend st).1).1).queue
        = st.queue ++ [QueuedEvent.refreshTrigger] :=
  ⟨rfl, rfl, rfl⟩

/-! ## Theorems: file watching -/

/-- C9: with `watchdog` absent (the `ImportError` branch), constructing
the file-watch collaborator returns `None` without error, and the
tracking and activation calls made through it are no-ops rather than
failures. -/
theorem filewatch_c9_graceful_noop (norm dirname : String → String)
    (paths : List String) (p : String) :
    ModuleChangedEventHandler false norm dirname paths
        = WatchCollab.absent
    ∧ trackModuleCall norm dirname WatchCollab.absent p
        = WatchCollab.absent
    ∧ activateCall norm dirname WatchCollab.absent
        = Except.ok WatchCollab.absent :=
  ⟨rfl, rfl, rfl⟩

/-! ## Theorems: interactive warm-up -/

/-- Dispatching preserves any namespace property preserved by each
single dispatch. -/
theorem dispatchTrace_preserves
    (upd : LoopEvent → List String → List String)
    (P : List String → Prop) (hP : ∀ e n, P n → P (upd e n)) :
    ∀ evs ns, P ns → ∀ pr ∈ dispatchTrace upd ns evs, P pr.2 := by
  intro evs
  induction evs with
  | nil => intro ns _ pr hpr; simp [dispatchTrace] at hpr
  | cons e rest ih =>
    intro ns hns pr hpr
    simp only [dispatchTrace, List.mem_cons] at hpr
    rcases hpr with h | h
    · subst h; exact hns
    · exact ih (upd e ns) (hP e ns hns) pr h

/-- Every event of a dispatch trace comes from the supplied list. -/
theorem dispatchTrace_events
    (upd : LoopEvent → List String → List String) :
    ∀ evs ns, ∀ pr ∈ dispatchTrace upd ns evs, pr.1 ∈ evs := by
  intro evs
  induction evs with
  | nil => intro ns pr hpr; simp [dispatchTrace] at hpr
  | cons e rest ih =>
    intro ns pr hpr
    simp only [dispatchTrace, List.mem_cons] at hpr
    rcases hpr with h | h
    · subst h; simp
    · simp [ih (upd e ns) pr h]

/-- C10: after the warm-up installs `help`, the temporary names `_repl`
and `_Helper` are deleted from the interpreter namespace while `help`
remains; the namespace seen by the startup event is exactly the
warmed-up one (so neither temporary name is bound there), and as long as
dispatching events does not itself re-bind them, no dispatch of the
startup event, bootstrap paste, or any coalesced user event ever sees
`_repl` or `_Helper` bound. -/
theorem mainloop_c10_warmup_cleanup
    (upd : LoopEvent → List String → List String) (ns0 : List String)
    (withPaste : Bool) (userEvents : List Nat) :
    ("_repl" ∉ warmup ns0 ∧ "_Helper" ∉ warmup ns0
      ∧ "help" ∈ warmup ns0)
    ∧ (∀ pr ∈ mainloopTrace upd ns0 withPaste userEvents,
        pr.1 = LoopEvent.startup → pr.2 = warmup ns0)
    ∧ ((∀ e n, "_repl" ∉ n → "_repl" ∉ upd e n) →
       (∀ e n, "_Helper" ∉ n → "_Helper" ∉ upd e n) →
       ∀ pr ∈ mainloopTrace upd ns0 withPaste userEvents,
        "_repl" ∉ pr.2 ∧ "_Helper" ∉ pr.2) := by
  have hrepl : "_repl" ∉ warmup ns0 := by
    simp [warmup, nsDel, List.mem_filter]
  have hhelper : "_Helper" ∉ warmup ns0 := by
    simp [warmup, nsDel, List.mem_filter]
  have hhelp : "help" ∈ warmup ns0 := by
    have h1 : ∀ X : List String, "help" ∈ nsBind "help" X := by
      intro X
      unfold nsBind
      split
      · assumption
      · exact List.mem_cons_self _ _
    simp [warmup, nsDel, List.mem_filter, h1]
  refine ⟨⟨hrepl, hhelper, hhelp⟩, ?_, ?_⟩
  · intro pr hpr hstart
    have hunf : mainloopTrace upd ns0 withPaste userEvents
        = (LoopEvent.startup, warmup ns0) ::
          dispatchTrace upd (upd LoopEvent.startup (warmup ns0))
            ((if withPaste then [LoopEvent.bootstrapPaste] else []) ++
              userEvents.map LoopEvent.user) := rfl
    rw [hunf] at hpr
    simp only [List.mem_cons] at hpr
    rcases hpr with h | h
    · rw [h]
    · exfalso
      have := dispatchTrace_events upd _ _ pr h
      cases withPaste <;> simp [hstart] at this
  · intro h1 h2 pr hpr
    exact dispatchTrace_preserves upd
      (fun n => "_repl" ∉ n ∧ "_Helper" ∉ n)
      (fun e n hn => ⟨h1 e n hn.1, h2 e n hn.2⟩) _ _
      ⟨hrepl, hhelper⟩ pr hpr

/-- Witness for `mainloop_c10_warmup_cleanup`: identity dispatch, empty
initial namespace, a bootstrap paste and one user event. -/
theorem mainloop_c10_warmup_cleanup_witness :
    ∀ pr ∈ mainloopTrace (fun _ n => n) [] true [0],
      "_repl" ∉ pr.2 ∧ "_Helper" ∉ pr.2 :=
  (mainloop_c10_warmup_cleanup (fun _ n => n) [] true [0]).2.2
    (fun _ _ h => h) (fun _ _ h => h)

end BpythonSpec
